import Mathlib

/-!
Verification of the py-sentenai query algebra and result-materialization
engine against its natural-language specification.  The Python sources
(`sentenai/flare.py`, `sentenai/api.py`, `sentenai/utils.py`) are shallowly
embedded below: every definition mirrors the corresponding Python function
field by field, and the claims are settled as theorems about those
definitions.
-/

namespace Sentenai

/-! ### Durations (`flare.py`, class `Delta`)

A `Delta` stores its seven components separately; comparisons between
deltas go through the converted wall-clock `timedelta`, which Python builds
as `timedelta(days=days + 7*4*months + 365*years, seconds=seconds,
minutes=minutes, hours=hours, weeks=weeks)`.  We measure that conversion in
seconds. -/

structure Delta where
  seconds : Nat
  minutes : Nat
  hours : Nat
  days : Nat
  weeks : Nat
  months : Nat
  years : Nat
deriving DecidableEq, Repr

/-- `delta()` with all-default (zero) arguments. -/
def deltaZero : Delta := ⟨0, 0, 0, 0, 0, 0, 0⟩

/-- The wall-clock conversion used by `Delta.timedelta`, in seconds:
months count as 28 days and years as 365 days. -/
def Delta.toSec (d : Delta) : Nat :=
  d.seconds + 60 * d.minutes + 3600 * d.hours
    + 86400 * (d.days + 28 * d.months + 365 * d.years) + 604800 * d.weeks

/-- Python `min(a, b)` over `Delta`s: replaces the first argument only when
`b < a` holds under the `timedelta` comparison (first argument on ties). -/
def deltaMin (a b : Delta) : Delta := if b.toSec < a.toSec then b else a

/-- Python `max(a, b)` over `Delta`s: replaces the first argument only when
`b > a` holds under the `timedelta` comparison (first argument on ties). -/
def deltaMax (a b : Delta) : Delta := if a.toSec < b.toSec then b else a

/-- `delta_or_first` from `merge`: conflicting exact widths collapse to the
zero duration; Python `!=` on `Delta` compares the converted timedeltas. -/
def deltaOrFirst (w1 w2 : Delta) : Delta :=
  if w1.toSec ≠ w2.toSec then deltaZero else w1

/-! ### Spans (`flare.py`, class `Span`) and the merge rule -/

/-- A `Span`'s payload: its positional query arguments (opaque here) and the
five optional duration/gap constraints read from the keyword arguments. -/
structure Span where
  query : List Nat
  within : Option Delta
  after : Option Delta
  minWidth : Option Delta
  maxWidth : Option Delta
  width : Option Delta
deriving DecidableEq, Repr

/-- The helper `go(op, attr)` inside `merge`: if either side is `None` the
other is carried through (`a1 or a2`, and `Delta` objects are always
truthy), otherwise the combining operator is applied. -/
def goOpt (op : Delta → Delta → Delta) : Option Delta → Option Delta → Option Delta
  | none, b => b
  | some a, none => some a
  | some a, some b => some (op a b)

/-- `merge(s1, s2)` from `flare.py`: builds `Span(*s2.query)` and fills the
five constraint fields with `go(min, '_within')`, `go(max, '_after')`,
`go(max, '_min_width')`, `go(min, '_max_width')`, `go(delta_or_first,
'_width')`. -/
def merge (s1 s2 : Span) : Span :=
  { query := s2.query
    within := goOpt deltaMin s1.within s2.within
    after := goOpt deltaMax s1.after s2.after
    minWidth := goOpt deltaMax s1.minWidth s2.minWidth
    maxWidth := goOpt deltaMin s1.maxWidth s2.maxWidth
    width := goOpt deltaOrFirst s1.width s2.width }

/-- Combining optional durations at the level of their wall-clock values:
absent fields are carried through, present pairs are combined by `f`. -/
def liftOpt (f : Nat → Nat → Nat) : Option Nat → Option Nat → Option Nat
  | none, b => b
  | some a, none => some a
  | some a, some b => some (f a b)

theorem deltaMin_toSec (a b : Delta) :
    (deltaMin a b).toSec = min a.toSec b.toSec := by
  unfold deltaMin
  split <;> omega

theorem deltaMax_toSec (a b : Delta) :
    (deltaMax a b).toSec = max a.toSec b.toSec := by
  unfold deltaMax
  split <;> omega

theorem goOpt_toSec (op : Delta → Delta → Delta) (f : Nat → Nat → Nat)
    (h : ∀ a b, (op a b).toSec = f a.toSec b.toSec) (x y : Option Delta) :
    (goOpt op x y).map Delta.toSec = liftOpt f (x.map Delta.toSec) (y.map Delta.toSec) := by
  cases x <;> cases y <;> simp [goOpt, liftOpt, h]

/-- Claim C1: merging an outer span `s1` with its sole child `s2` yields a
span whose `within` is the minimum of the two `within` durations, whose
`after` is the maximum, whose `min` duration is the maximum and whose `max`
duration is the minimum — all compared through the wall-clock delta
conversion, with a field present on only one side carried through — and
whose exact width collapses to the zero duration when both sides set exact
widths with different wall-clock values, and stays `w1` when the two agree. -/
theorem merge_constraint_rules (s1 s2 : Span) :
    ((merge s1 s2).within).map Delta.toSec
        = liftOpt min (s1.within.map Delta.toSec) (s2.within.map Delta.toSec)
    ∧ ((merge s1 s2).after).map Delta.toSec
        = liftOpt max (s1.after.map Delta.toSec) (s2.after.map Delta.toSec)
    ∧ ((merge s1 s2).minWidth).map Delta.toSec
        = liftOpt max (s1.minWidth.map Delta.toSec) (s2.minWidth.map Delta.toSec)
    ∧ ((merge s1 s2).maxWidth).map Delta.toSec
        = liftOpt min (s1.maxWidth.map Delta.toSec) (s2.maxWidth.map Delta.toSec)
    ∧ (∀ w1 w2, s1.width = some w1 → s2.width = some w2 →
        (merge s1 s2).width
          = some (if w1.toSec = w2.toSec then w1 else deltaZero))
    ∧ (s1.width = none → (merge s1 s2).width = s2.width)
    ∧ (s2.width = none → (merge s1 s2).width = s1.width)
    ∧ (merge s1 s2).query = s2.query := by
  refine ⟨goOpt_toSec _ _ deltaMin_toSec _ _, goOpt_toSec _ _ deltaMax_toSec _ _,
    goOpt_toSec _ _ deltaMax_toSec _ _, goOpt_toSec _ _ deltaMin_toSec _ _,
    ?_, ?_, ?_, rfl⟩
  · intro w1 w2 h1 h2
    simp only [merge, h1, h2, goOpt, deltaOrFirst]
    by_cases h : w1.toSec = w2.toSec <;> simp [h]
  · intro h1
    cases h2 : s2.width <;> simp [merge, h1, h2, goOpt]
  · intro h2
    cases h1 : s1.width <;> simp [merge, h1, h2, goOpt]

/-- Witness for C1 at concrete spans: the outer span carries
`within = 2s`, `exactly = 5s`; the inner carries `within = 3s`,
`exactly = 7s`; the merged span keeps `within = 2s` and collapses the
conflicting exact widths to the zero duration. -/
theorem merge_constraint_rules_witness :
    ((merge ⟨[1], some ⟨2,0,0,0,0,0,0⟩, none, none, none, some ⟨5,0,0,0,0,0,0⟩⟩
            ⟨[2], some ⟨3,0,0,0,0,0,0⟩, none, none, none, some ⟨7,0,0,0,0,0,0⟩⟩).width
        = some (if Delta.toSec ⟨5,0,0,0,0,0,0⟩ = Delta.toSec ⟨7,0,0,0,0,0,0⟩
                then ⟨5,0,0,0,0,0,0⟩ else deltaZero))
    ∧ ((merge ⟨[1], some ⟨2,0,0,0,0,0,0⟩, none, none, none, some ⟨5,0,0,0,0,0,0⟩⟩
            ⟨[2], some ⟨3,0,0,0,0,0,0⟩, none, none, none, some ⟨7,0,0,0,0,0,0⟩⟩).within).map Delta.toSec
        = liftOpt min (some 2) (some 3) := by
  have h := merge_constraint_rules
    ⟨[1], some ⟨2,0,0,0,0,0,0⟩, none, none, none, some ⟨5,0,0,0,0,0,0⟩⟩
    ⟨[2], some ⟨3,0,0,0,0,0,0⟩, none, none, none, some ⟨7,0,0,0,0,0,0⟩⟩
  exact ⟨h.2.2.2.2.1 _ _ rfl rfl, h.1⟩

/-! ### Keyword arguments (`**kwargs`) as ordered string/duration maps -/

/-- Python `**kwargs` dictionaries restricted to duration values, modelled
as insertion-ordered association lists with distinct keys. -/
abbrev Kw := List (String × Delta)

/-- `kwargs.get(k)`. -/
def kwGet (kw : Kw) (k : String) : Option Delta :=
  (kw.find? (fun p => p.1 == k)).map (·.2)

/-- `k in kwargs`. -/
def kwHas (kw : Kw) (k : String) : Bool := kw.any (fun p => p.1 == k)

/-- Construction errors (`FlareSyntaxError msg`). -/
inductive FlareError where
  | flareSyntax (msg : String)
deriving DecidableEq, Repr

/-- `Span.__init__`: raises `FlareSyntaxError` on an empty positional list,
otherwise reads the five constraints out of the keyword arguments. -/
def mkSpan (q : List Nat) (kw : Kw) : Except FlareError Span :=
  if q.isEmpty then .error (.flareSyntax "") else
    .ok { query := q
          within := kwGet kw "within"
          after := kwGet kw "after"
          minWidth := kwGet kw "min"
          maxWidth := kwGet kw "max"
          width := kwGet kw "exactly" }

/-- The gap-defaulting prelude shared by `Select.then`, `Serial.then` and
`Span.then`: `if "after" not in kwargs and "within" not in kwargs:
kwargs["within"] = delta(seconds=0)`. -/
def thenKw (kw : Kw) : Kw :=
  if kwHas kw "after" || kwHas kw "within" then kw
  else kw ++ [("within", deltaZero)]

/-- `Serial`: an ordered chain of spans. -/
structure Serial where
  query : List Span
deriving DecidableEq, Repr

/-- `Serial.then`: appends `Span(*q, **kwargs)` after gap defaulting. -/
def serialThen (s : Serial) (q : List Nat) (kw : Kw) : Except FlareError Serial :=
  (mkSpan q (thenKw kw)).map fun sp => ⟨s.query ++ [sp]⟩

/-- `Select`: the query root, with its optional absolute bounds and the
span list built by `span`/`then`. -/
structure Select where
  selStart : Option Int
  selEnd : Option Int
  query : List Span
deriving DecidableEq, Repr

/-- The keyword names `Select.span` accepts. -/
def validSpanKey (k : String) : Bool := k == "min" || k == "max" || k == "exactly"

/-- `Select.span`: rejects any keyword outside `min`/`max`/`exactly` before
touching the query list, then rejects a second call, then appends the span. -/
def selectSpan (sel : Select) (q : List Nat) (kw : Kw) : Except FlareError Select :=
  if kw.any (fun p => !(validSpanKey p.1)) then
    .error (.flareSyntax
      "first span in a select supports only min, max and exactly duration arguments")
  else if !sel.query.isEmpty then .error (.flareSyntax "Use .then method")
  else (mkSpan q kw).map fun sp => { sel with query := sel.query ++ [sp] }

/-- `Select.then`: requires a prior `span` call, then behaves as
`Serial.then`. -/
def selectThen (sel : Select) (q : List Nat) (kw : Kw) : Except FlareError Select :=
  if sel.query.isEmpty then .error (.flareSyntax "Use .span method to start select")
  else (mkSpan q (thenKw kw)).map fun sp => { sel with query := sel.query ++ [sp] }

/-- `Span.then`: returns `Serial(self, Span(*q, **kwargs))` after gap
defaulting. -/
def spanThen (s0 : Span) (q : List Nat) (kw : Kw) : Except FlareError Serial :=
  (mkSpan q (thenKw kw)).map fun sp => ⟨[s0, sp]⟩

/-- Repeated `then` calls on a `Serial`, each with its own conditions and
keyword arguments. -/
def buildThens : Serial → List (List Nat × Kw) → Except FlareError Serial
  | s, [] => .ok s
  | s, c :: cs =>
    match serialThen s c.1 c.2 with
    | .error e => .error e
    | .ok s2 => buildThens s2 cs

theorem exceptMap_ok {α β : Type} (f : α → β) (e : Except FlareError α) (b : β)
    (h : e.map f = .ok b) : ∃ a, e = .ok a ∧ b = f a := by
  cases e with
  | error _ => simp [Except.map] at h
  | ok a => exact ⟨a, rfl, by simpa [Except.map] using h.symm⟩

theorem kwGet_append_not_has (kw l : Kw) (k : String) (h : kwHas kw k = false) :
    kwGet (kw ++ l) k = kwGet l k := by
  induction kw with
  | nil => rfl
  | cons p kw ih =>
    simp only [kwHas, List.any_cons, Bool.or_eq_false_iff] at h
    simp only [kwGet, List.cons_append, List.find?_cons, h.1]
    exact ih h.2

theorem mkSpan_then_default (q : List Nat) (kw : Kw) (sp : Span)
    (hw : kwHas kw "within" = false) (ha : kwHas kw "after" = false)
    (h : mkSpan q (thenKw kw) = .ok sp) :
    sp.within = some deltaZero ∧ sp.after = none := by
  have hkw : thenKw kw = kw ++ [("within", deltaZero)] := by
    simp [thenKw, hw, ha]
  rw [hkw] at h
  unfold mkSpan at h
  by_cases hq : q.isEmpty <;> simp [hq] at h
  refine ⟨?_, ?_⟩
  · rw [← h, kwGet_append_not_has _ _ _ hw]
    rfl
  · rw [← h, kwGet_append_not_has _ _ _ ha]
    rfl

theorem mkSpan_ok_fields (q : List Nat) (kw : Kw) (sp : Span)
    (h : mkSpan q kw = .ok sp) :
    sp.within = kwGet kw "within" ∧ sp.after = kwGet kw "after" := by
  unfold mkSpan at h
  by_cases hq : q.isEmpty <;> simp [hq] at h
  rw [← h]
  exact ⟨rfl, rfl⟩

/-- Claim C3: every `then` call (on `Select`, `Serial` or `Span`) whose
keyword arguments contain neither `within` nor `after` gives the appended
segment the gap constraint `within = delta(seconds=0)`; when the caller
supplies `within` or `after` no default is inserted; hence a sequence built
by repeated `then` with no gap keywords carries the zero `within` on every
appended (non-first) segment. -/
theorem then_defaults_zero_within :
    (∀ (s : Serial) (q : List Nat) (kw : Kw) (ser : Serial),
        kwHas kw "within" = false → kwHas kw "after" = false →
        serialThen s q kw = .ok ser →
        ∃ sp, ser.query = s.query ++ [sp] ∧ sp.within = some deltaZero ∧ sp.after = none)
    ∧ (∀ (sel : Select) (q : List Nat) (kw : Kw) (res : Select),
        kwHas kw "within" = false → kwHas kw "after" = false →
        selectThen sel q kw = .ok res →
        ∃ sp, res.query = sel.query ++ [sp] ∧ sp.within = some deltaZero ∧ sp.after = none)
    ∧ (∀ (s0 : Span) (q : List Nat) (kw : Kw) (ser : Serial),
        kwHas kw "within" = false → kwHas kw "after" = false →
        spanThen s0 q kw = .ok ser →
        ∃ sp, ser.query = [s0, sp] ∧ sp.within = some deltaZero ∧ sp.after = none)
    ∧ (∀ (s : Serial) (q : List Nat) (kw : Kw) (ser : Serial),
        (kwHas kw "within" = true ∨ kwHas kw "after" = true) →
        serialThen s q kw = .ok ser →
        ∃ sp, ser.query = s.query ++ [sp]
          ∧ sp.within = kwGet kw "within" ∧ sp.after = kwGet kw "after")
    ∧ (∀ (s : Serial) (calls : List (List Nat × Kw)) (res : Serial),
        (∀ c ∈ calls, kwHas c.2 "within" = false ∧ kwHas c.2 "after" = false) →
        buildThens s calls = .ok res →
        ∃ ext, res.query = s.query ++ ext ∧ ∀ sp ∈ ext, sp.within = some deltaZero) := by
  have hthen : ∀ (kw : Kw), (kwHas kw "within" = true ∨ kwHas kw "after" = true) →
      thenKw kw = kw := by
    intro kw h
    unfold thenKw
    rcases h with h | h <;> simp [h]
  refine ⟨?_, ?_, ?_, ?_, ?_⟩
  · intro s q kw ser hw ha h
    obtain ⟨sp, hsp, hser⟩ := exceptMap_ok _ _ _ h
    obtain ⟨h1, h2⟩ := mkSpan_then_default q kw sp hw ha hsp
    exact ⟨sp, by rw [hser], h1, h2⟩
  · intro sel q kw res hw ha h
    unfold selectThen at h
    by_cases hq : sel.query.isEmpty <;> simp [hq] at h
    obtain ⟨sp, hsp, hres⟩ := exceptMap_ok _ _ _ h
    obtain ⟨h1, h2⟩ := mkSpan_then_default q kw sp hw ha hsp
    exact ⟨sp, by rw [hres], h1, h2⟩
  · intro s0 q kw ser hw ha h
    obtain ⟨sp, hsp, hser⟩ := exceptMap_ok _ _ _ h
    obtain ⟨h1, h2⟩ := mkSpan_then_default q kw sp hw ha hsp
    exact ⟨sp, by rw [hser], h1, h2⟩
  · intro s q kw ser hpresent h
    obtain ⟨sp, hsp, hser⟩ := exceptMap_ok _ _ _ h
    rw [hthen kw hpresent] at hsp
    obtain ⟨h1, h2⟩ := mkSpan_ok_fields q kw sp hsp
    exact ⟨sp, by rw [hser], h1, h2⟩
  · intro s calls
    induction calls generalizing s with
    | nil =>
      intro res _ h
      simp only [buildThens] at h
      exact ⟨[], by simp [← Except.ok.inj h], by simp⟩
    | cons c cs ih =>
      intro res hok h
      simp only [buildThens] at h
      cases hstep : serialThen s c.1 c.2 with
      | error e => rw [hstep] at h; exact absurd h (by simp)
      | ok s2 =>
        rw [hstep] at h
        obtain ⟨sp, hsp, hs2⟩ := exceptMap_ok _ _ _ hstep
        obtain ⟨hw, ha⟩ := hok c (by simp)
        obtain ⟨h1, _⟩ := mkSpan_then_default c.1 c.2 sp hw ha hsp
        obtain ⟨ext, hext, hall⟩ := ih s2 res (fun d hd => hok d (by simp [hd])) h
        refine ⟨sp :: ext, ?_, ?_⟩
        · rw [hext, hs2]
          simp
        · intro x hx
          rcases List.mem_cons.mp hx with hx | hx
          · rw [hx]; exact h1
          · exact hall x hx

/-- Witness for C3: one `then` call with empty keyword arguments on the
one-span sequence appends a segment whose `within` is the zero duration. -/
theorem then_defaults_zero_within_witness :
    ∃ sp, ((⟨[⟨[0], none, none, none, none, none⟩, ⟨[1], some deltaZero, none, none, none, none⟩]⟩ : Serial)).query
        = (⟨[⟨[0], none, none, none, none, none⟩]⟩ : Serial).query ++ [sp]
      ∧ sp.within = some deltaZero ∧ sp.after = none := by
  exact then_defaults_zero_within.1 ⟨[⟨[0], none, none, none, none, none⟩]⟩ [1] []
    ⟨[⟨[0], none, none, none, none, none⟩, ⟨[1], some deltaZero, none, none, none, none⟩]⟩
    rfl rfl rfl

/-- Claim C8: `Select.span` rejects every keyword argument outside
`min`/`max`/`exactly` — in particular the gap constraints `within` and
`after` — with a `FlareSyntaxError` raised before any segment is appended;
a second `span` call on a non-empty select also raises; when all keywords
are valid and the select is fresh, the span is appended. -/
theorem select_span_rules :
    (∀ (sel : Select) (q : List Nat) (kw : Kw),
        kw.any (fun p => !(validSpanKey p.1)) = true →
        selectSpan sel q kw = .error (.flareSyntax
          "first span in a select supports only min, max and exactly duration arguments"))
    ∧ (∀ (sel : Select) (q : List Nat) (kw : Kw),
        kwHas kw "within" = true →
        selectSpan sel q kw = .error (.flareSyntax
          "first span in a select supports only min, max and exactly duration arguments"))
    ∧ (∀ (sel : Select) (q : List Nat) (kw : Kw),
        kwHas kw "after" = true →
        selectSpan sel q kw = .error (.flareSyntax
          "first span in a select supports only min, max and exactly duration arguments"))
    ∧ (∀ (sel : Select) (q : List Nat) (kw : Kw),
        sel.query ≠ [] → ∃ e, selectSpan sel q kw = .error e)
    ∧ (∀ (sel : Select) (q : List Nat) (kw : Kw),
        (∀ p ∈ kw, validSpanKey p.1 = true) → sel.query = [] → q ≠ [] →
        selectSpan sel q kw = .ok { sel with query :=
          [⟨q, kwGet kw "within", kwGet kw "after",
            kwGet kw "min", kwGet kw "max", kwGet kw "exactly"⟩] }) := by
  have hbad : ∀ (kw : Kw) (k : String), validSpanKey k = false →
      kwHas kw k = true → kw.any (fun p => !(validSpanKey p.1)) = true := by
    intro kw k hk h
    rw [kwHas, List.any_eq_true] at h
    obtain ⟨p, hp, hpk⟩ := h
    rw [List.any_eq_true]
    refine ⟨p, hp, ?_⟩
    have : p.1 = k := by simpa using hpk
    simp [this, hk]
  refine ⟨?_, ?_, ?_, ?_, ?_⟩
  · intro sel q kw h
    simp [selectSpan, h]
  · intro sel q kw h
    simp [selectSpan, hbad kw "within" (by decide) h]
  · intro sel q kw h
    simp [selectSpan, hbad kw "after" (by decide) h]
  · intro sel q kw h
    unfold selectSpan
    by_cases hb : kw.any (fun p => !(validSpanKey p.1)) = true
    · exact ⟨.flareSyntax
        "first span in a select supports only min, max and exactly duration arguments",
        by simp [hb]⟩
    · have hq : sel.query.isEmpty = false := by
        cases hsel : sel.query with
        | nil => exact absurd hsel h
        | cons a l => simp
      exact ⟨.flareSyntax "Use .then method",
        by simp [Bool.eq_false_iff.mpr hb, hq]⟩
  · intro sel q kw hvalid hsel hq
    have hb : kw.any (fun p => !(validSpanKey p.1)) = false := by
      rw [Bool.eq_false_iff]
      intro hc
      rw [List.any_eq_true] at hc
      obtain ⟨p, hp, hpk⟩ := hc
      rw [hvalid p hp] at hpk
      exact absurd hpk (by simp)
    have hqe : q.isEmpty = false := by
      cases q with
      | nil => exact absurd rfl hq
      | cons a l => simp
    simp [selectSpan, hb, hsel, mkSpan, hqe, Except.map]

/-- Witness for C8: calling `span` with a `within` keyword on a fresh
select raises the keyword error; a second call on a one-span select with no
keywords raises; a fresh call with a `min` keyword appends the span. -/
theorem select_span_rules_witness :
    selectSpan ⟨none, none, []⟩ [5] [("within", deltaZero)]
        = .error (.flareSyntax
          "first span in a select supports only min, max and exactly duration arguments")
    ∧ (∃ e, selectSpan ⟨none, none, [⟨[5], none, none, none, none, none⟩]⟩ [6] []
        = .error e)
    ∧ selectSpan ⟨none, none, []⟩ [5] [("min", deltaZero)]
        = .ok ⟨none, none, [⟨[5], none, none, some deltaZero, none, none⟩]⟩ := by
  refine ⟨select_span_rules.2.1 _ _ _ rfl, select_span_rules.2.2.2.1 _ _ [] (by simp), ?_⟩
  have h := select_span_rules.2.2.2.2 ⟨none, none, []⟩ [5] [("min", deltaZero)]
    (by decide) rfl (by simp)
  simpa [kwGet] using h

/-! ### Delta serialization (`Delta.__call__`) -/

/-- The dictionary built by the seven `if component > 0` blocks of
`Delta.__call__`, in source order. -/
def deltaCallRaw (d : Delta) : List (String × Nat) :=
  (if d.seconds > 0 then [("seconds", d.seconds)] else [])
    ++ (if d.minutes > 0 then [("minutes", d.minutes)] else [])
    ++ (if d.hours > 0 then [("hours", d.hours)] else [])
    ++ (if d.days > 0 then [("days", d.days)] else [])
    ++ (if d.weeks > 0 then [("weeks", d.weeks)] else [])
    ++ (if d.months > 0 then [("months", d.months)] else [])
    ++ (if d.years > 0 then [("years", d.years)] else [])

/-- `Delta.__call__`: `return r or {'seconds': 0}` — the empty dictionary
is replaced by `{'seconds': 0}`. -/
def deltaCall (d : Delta) : List (String × Nat) :=
  if deltaCallRaw d = [] then [("seconds", 0)] else deltaCallRaw d

theorem mem_ite_single {α : Type} (c : Prop) [Decidable c] (x a : α) :
    a ∈ (if c then [x] else ([] : List α)) ↔ c ∧ a = x := by
  by_cases h : c <;> simp [h]

theorem ite_single_eq_nil {α : Type} (c : Prop) [Decidable c] (x : α) :
    (if c then [x] else ([] : List α)) = [] ↔ ¬c := by
  by_cases h : c <;> simp [h]

theorem deltaCallRaw_eq_nil (d : Delta) : deltaCallRaw d = [] ↔ d = deltaZero := by
  cases d with
  | mk s mi h dd w mo y =>
    simp only [deltaCallRaw, List.append_eq_nil, ite_single_eq_nil, deltaZero,
      Delta.mk.injEq]
    omega

theorem mem_deltaCallRaw (d : Delta) (k : String) (v : Nat) :
    (k, v) ∈ deltaCallRaw d ↔
      0 < v ∧ ((k = "seconds" ∧ v = d.seconds) ∨ (k = "minutes" ∧ v = d.minutes)
        ∨ (k = "hours" ∧ v = d.hours) ∨ (k = "days" ∧ v = d.days)
        ∨ (k = "weeks" ∧ v = d.weeks) ∨ (k = "months" ∧ v = d.months)
        ∨ (k = "years" ∧ v = d.years)) := by
  simp only [deltaCallRaw, List.mem_append, mem_ite_single, Prod.mk.injEq]
  constructor
  · rintro ((((((⟨h, rfl, rfl⟩ | ⟨h, rfl, rfl⟩) | ⟨h, rfl, rfl⟩) | ⟨h, rfl, rfl⟩)
      | ⟨h, rfl, rfl⟩) | ⟨h, rfl, rfl⟩) | ⟨h, rfl, rfl⟩) <;> simp [h]
  · rintro ⟨hv, (⟨rfl, rfl⟩ | ⟨rfl, rfl⟩ | ⟨rfl, rfl⟩ | ⟨rfl, rfl⟩
      | ⟨rfl, rfl⟩ | ⟨rfl, rfl⟩ | ⟨rfl, rfl⟩)⟩ <;> simp [hv]

/-- Claim C9: serializing a `Delta` yields a dictionary containing exactly
those of its seven components whose value is strictly positive, each mapped
to that value; the all-zero delta serializes to `{"seconds": 0}`; the
result is never the empty dictionary. -/
theorem delta_call_components :
    (∀ d : Delta, deltaCall d ≠ [])
    ∧ (∀ d : Delta, d = deltaZero → deltaCall d = [("seconds", 0)])
    ∧ (∀ (d : Delta) (k : String) (v : Nat), d ≠ deltaZero →
        ((k, v) ∈ deltaCall d ↔
          0 < v ∧ ((k = "seconds" ∧ v = d.seconds) ∨ (k = "minutes" ∧ v = d.minutes)
            ∨ (k = "hours" ∧ v = d.hours) ∨ (k = "days" ∧ v = d.days)
            ∨ (k = "weeks" ∧ v = d.weeks) ∨ (k = "months" ∧ v = d.months)
            ∨ (k = "years" ∧ v = d.years)))) := by
  refine ⟨?_, ?_, ?_⟩
  · intro d
    unfold deltaCall
    split
    · simp
    · assumption
  · intro d hd
    have : deltaCallRaw d = [] := (deltaCallRaw_eq_nil d).mpr hd
    simp [deltaCall, this]
  · intro d k v hd
    have hraw : deltaCallRaw d ≠ [] := fun h => hd ((deltaCallRaw_eq_nil d).mp h)
    rw [deltaCall, if_neg hraw]
    exact mem_deltaCallRaw d k v

/-- Witness for C9: the all-zero delta serializes to `{"seconds": 0}`, and
`delta(minutes=2)` contains the pair `("minutes", 2)` and no zero entry. -/
theorem delta_call_components_witness :
    deltaCall deltaZero = [("seconds", 0)]
    ∧ (("minutes", 2) ∈ deltaCall ⟨0, 2, 0, 0, 0, 0, 0⟩ ↔
        0 < 2 ∧ (("minutes" = "seconds" ∧ 2 = 0) ∨ ("minutes" = "minutes" ∧ 2 = 2)
          ∨ ("minutes" = "hours" ∧ 2 = 0) ∨ ("minutes" = "days" ∧ 2 = 0)
          ∨ ("minutes" = "weeks" ∧ 2 = 0) ∨ ("minutes" = "months" ∧ 2 = 0)
          ∨ ("minutes" = "years" ∧ 2 = 0))) := by
  exact ⟨delta_call_components.2.1 deltaZero rfl,
    delta_call_components.2.2 ⟨0, 2, 0, 0, 0, 0, 0⟩ "minutes" 2 (by decide)⟩

/-! ### Streams (`flare.py`, class `Stream`) -/

/-- A stream reference: the stored (URL-quoted) name plus its metadata,
info and filters, which equality and hashing ignore. -/
structure Stream where
  name : String
  meta : Nat
  info : Nat
  filters : List Nat
deriving DecidableEq, Repr

/-- `Stream.__eq__`: `try: return self._name == other._name except
AttributeError: return False` — the comparand is its `_name` attribute when
it has one. -/
def streamEqName (s : Stream) (other : Option String) : Bool :=
  match other with
  | some n => s.name == n
  | none => false

/-- `Stream == Stream` comparison. -/
def streamEq (s1 s2 : Stream) : Bool := streamEqName s1 (some s2.name)

/-- `Stream.__hash__`: `hash(self._name)`, a function of the name alone. -/
def streamHash (s : Stream) : UInt64 := s.name.hash

/-- Claim C10: two streams compare equal exactly when their stored names
are equal, whatever their meta, info and filters; equal names give equal
hashes; comparing against an object with no name attribute returns `False`
rather than raising; hence streams collide as dictionary keys (equal and
equal-hash) exactly when their names coincide. -/
theorem stream_eq_hash_rules :
    (∀ s1 s2 : Stream, streamEq s1 s2 = true ↔ s1.name = s2.name)
    ∧ (∀ (n : String) (m1 i1 m2 i2 : Nat) (f1 f2 : List Nat),
        streamEq ⟨n, m1, i1, f1⟩ ⟨n, m2, i2, f2⟩ = true)
    ∧ (∀ s1 s2 : Stream, s1.name = s2.name → streamHash s1 = streamHash s2)
    ∧ (∀ s : Stream, streamEqName s none = false)
    ∧ (∀ s1 s2 : Stream,
        (streamEq s1 s2 = true ∧ streamHash s1 = streamHash s2) ↔ s1.name = s2.name) := by
  refine ⟨?_, ?_, ?_, ?_, ?_⟩
  · intro s1 s2
    simp [streamEq, streamEqName]
  · intro n m1 i1 m2 i2 f1 f2
    simp [streamEq, streamEqName]
  · intro s1 s2 h
    simp [streamHash, h]
  · intro s
    rfl
  · intro s1 s2
    constructor
    · intro h
      simpa [streamEq, streamEqName] using h.1
    · intro h
      exact ⟨by simp [streamEq, streamEqName, h], by simp [streamHash, h]⟩

/-- Witness for C10: streams named `"t"` with different meta, info and
filters have equal hashes by the name-equality rule. -/
theorem stream_eq_hash_rules_witness :
    streamHash ⟨"t", 1, 2, [3]⟩ = streamHash ⟨"t", 4, 5, []⟩ := by
  exact stream_eq_hash_rules.2.2.1 ⟨"t", 1, 2, [3]⟩ ⟨"t", 4, 5, []⟩ rfl

/-! ### Conditions from attribute paths (`EventPath`/`StreamPath`) -/

/-- Runtime values a condition can compare against (numbers and bools and
strings, plus Python lists of values). -/
inductive Value where
  | num (n : Int)
  | bool (b : Bool)
  | str (s : String)
  | list (xs : List Value)

/-- `type(val) == list`. -/
def Value.isList : Value → Bool
  | .list _ => true
  | _ => false

/-- An event-local attribute path (`V.foo.bar`). -/
structure EventPath where
  segs : List String
deriving DecidableEq, Repr

/-- A stream-bound attribute path (`stream.foo.bar`). -/
structure StreamPath where
  segs : List String
  stream : Stream
deriving DecidableEq, Repr

/-- A condition's path is one of the two path kinds. -/
inductive CondPath where
  | event (p : EventPath)
  | bound (p : StreamPath)

/-- A condition: path, operator and value, as built by the comparison
operators. -/
structure Cond where
  path : CondPath
  op : String
  val : Value

/-- `EventPath.__eq__`: a list value turns the operator into `in`. -/
def eventPathEq (p : EventPath) (v : Value) : Cond :=
  if v.isList then ⟨.event p, "in", v⟩ else ⟨.event p, "==", v⟩

/-- `EventPath.__ne__`: always builds the `!=` operator (no list case in
the code, though its docstring promises `not in`). -/
def eventPathNe (p : EventPath) (v : Value) : Cond := ⟨.event p, "!=", v⟩

/-- `StreamPath.__eq__`: a list value turns the operator into `in`. -/
def streamPathEq (p : StreamPath) (v : Value) : Cond :=
  if v.isList then ⟨.bound p, "in", v⟩ else ⟨.bound p, "==", v⟩

/-- `StreamPath.__ne__`: always builds the `!=` operator (no list case in
the code, though its docstring promises `not in`). -/
def streamPathNe (p : StreamPath) (v : Value) : Cond := ⟨.bound p, "!=", v⟩

/-- Claim C4 (code bug): `==` against a list is rewritten to membership
`in` on both path kinds and stays `==` on non-lists, but `!=` always
produces the operator `!=`, never `not in`, even against a list — contrary
to the claim and to the docstrings of `EventPath.__ne__` and
`StreamPath.__ne__`. -/
theorem path_list_comparison_ops :
    (∀ (p : EventPath) (v : Value), v.isList = true → (eventPathEq p v).op = "in")
    ∧ (∀ (p : EventPath) (v : Value), v.isList = false → (eventPathEq p v).op = "==")
    ∧ (∀ (p : StreamPath) (v : Value), v.isList = true → (streamPathEq p v).op = "in")
    ∧ (∀ (p : StreamPath) (v : Value), v.isList = false → (streamPathEq p v).op = "==")
    ∧ (∀ (p : EventPath) (v : Value), (eventPathNe p v).op = "!=")
    ∧ (∀ (p : StreamPath) (v : Value), (streamPathNe p v).op = "!=")
    ∧ (eventPathNe ⟨["x"]⟩ (.list [.num 1, .num 2])).op ≠ "not in"
    ∧ (streamPathNe ⟨["x"], ⟨"s", 0, 0, []⟩⟩ (.list [.num 1, .num 2])).op ≠ "not in" := by
  refine ⟨?_, ?_, ?_, ?_, ?_, ?_, ?_, ?_⟩
  · intro p v h
    simp [eventPathEq, h]
  · intro p v h
    simp [eventPathEq, h]
  · intro p v h
    simp [streamPathEq, h]
  · intro p v h
    simp [streamPathEq, h]
  · intro p v
    rfl
  · intro p v
    rfl
  · decide
  · decide

/-- Witness for C4: at the failing input `V.x != [1, 2]` the code produces
the operator `!=` (not `not in`), while `V.x == [1, 2]` produces `in`. -/
theorem path_list_comparison_ops_witness :
    (eventPathEq ⟨["x"]⟩ (.list [.num 1, .num 2])).op = "in"
    ∧ (eventPathNe ⟨["x"]⟩ (.list [.num 1, .num 2])).op = "!=" := by
  exact ⟨path_list_comparison_ops.1 ⟨["x"]⟩ (.list [.num 1, .num 2]) rfl,
    path_list_comparison_ops.2.2.2.2.1 ⟨["x"]⟩ (.list [.num 1, .num 2])⟩

/-! ### AST serialization values and the Switch transition-chain -/

/-- The JSON-like dictionaries the AST generators produce; object fields
keep insertion order. -/
inductive J where
  | s (v : String)
  | n (v : Int)
  | b (v : Bool)
  | arr (xs : List J)
  | obj (fields : List (String × J))

mutual

/-- The serialized form of a value (`'val': val`). -/
def valJ : Value → J
  | .num n => .n n
  | .bool b => .b b
  | .str s => .s s
  | .list xs => .arr (valJList xs)

def valJList : List Value → List J
  | [] => []
  | v :: vs => valJ v :: valJList vs

end

/-- The type tag `Cond.__call__` infers from the value's runtime kind:
floats and ints map to `double`, bools to `bool`, and anything else —
including lists — falls through to `string`. -/
def valTag : Value → String
  | .num _ => "double"
  | .bool _ => "bool"
  | .str _ => "string"
  | .list _ => "string"

/-- `del b['filter']['type']` — removing one key from an object. -/
def removeKeyJ (k : String) : J → J
  | .obj fs => .obj (fs.filter (fun p => p.1 ≠ k))
  | j => j

/-- Stand-in for the serialized form of a stream filter condition; filters
are opaque tokens in this embedding (no claim concerns a filtered stream's
serialized form). -/
def filterJ (n : Nat) : J := J.n (Int.ofNat n)

/-- `Stream.__call__` with no argument: `{'name': name}`, plus the
`filter` entry when filters are present (conjoined with `&&` when more
than one; a single filter has its `type` key deleted). -/
def streamCall (st : Stream) : J :=
  match st.filters with
  | [] => J.obj [("name", J.s st.name)]
  | [f] => J.obj [("name", J.s st.name), ("filter", removeKeyJ "type" (filterJ f))]
  | fs => J.obj [("name", J.s st.name),
      ("filter", J.obj [("type", J.s "&&"), ("args", J.arr (fs.map filterJ))])]

/-- The serialized path entries added by `d.update(self.path())`: an
event-local path contributes `path`, a stream-bound path contributes
`path` and `stream`. -/
def condPathJ : CondPath → List (String × J)
  | .event p => [("path", J.arr (J.s "event" :: p.segs.map J.s))]
  | .bound p => [("path", J.arr (J.s "event" :: p.segs.map J.s)),
      ("stream", streamCall p.stream)]

/-- `Cond.__call__` with no stream argument: `op` and typed `arg`, then
`type: span` (the guard `if self.path.stream` is always truthy, because
attribute chaining turns `.stream` into a fresh truthy path object on both
path kinds), then the path entries. -/
def condCall (c : Cond) : J :=
  J.obj ([("op", J.s c.op),
          ("arg", J.obj [("type", J.s (valTag c.val)), ("val", valJ c.val)]),
          ("type", J.s "span")] ++ condPathJ c.path)

/-- Errors raised during AST generation. -/
inductive PyErr where
  | flareSyntax (msg : String)
  | typeError (msg : String)
deriving DecidableEq, Repr

/-- A transition chain: its ordered condition groups and the stream it was
bound to, if any. -/
structure Switch where
  query : List (List Cond)
  stream : Option Stream

/-- `Switch.__init__`: checks every condition uses an event-local path and
stores the arguments as a single condition group; no group-count check
happens here. -/
def mkSwitch (q : List Cond) : Except FlareError Switch :=
  if q.all (fun c => match c.path with | .event _ => true | .bound _ => false) then
    .ok ⟨[q], none⟩
  else .error (.flareSyntax "Use V. for paths within event()")

/-- `Switch.__rshift__`: concatenates the two chains' condition groups. -/
def switchRShift (s1 s2 : Switch) : Switch := ⟨s1.query ++ s2.query, none⟩

/-- `Switch._bind`: attaches the stream; a bound chain cannot be rebound. -/
def bindSwitch (sw : Switch) (st : Stream) : Except PyErr Switch :=
  match sw.stream with
  | some _ => .error (.typeError "Cannot rebind switches.")
  | none => .ok ⟨sw.query, some st⟩

/-- One condition group of `Switch.__call__`: several conditions conjoin
under `&&`, a single condition serializes bare, an empty group raises. -/
def condGroupJ : List Cond → Except PyErr J
  | [] => .error (.flareSyntax "Switches must have non-empty conditions")
  | [c] => .ok (condCall c)
  | cs => .ok (J.obj [("type", J.s "&&"), ("args", J.arr (cs.map condCall))])

/-- `Switch.__call__`: raises `FlareSyntaxError` when the chain holds at
most one condition group, otherwise serializes the groups and the bound
stream (calling an unbound `None` stream raises `TypeError`). -/
def switchCall (sw : Switch) : Except PyErr J :=
  if sw.query.length ≤ 1 then
    .error (.flareSyntax "Switches must contain at least two `event()`'s")
  else do
    let cds ← sw.query.mapM condGroupJ
    match sw.stream with
    | none => .error (.typeError "'NoneType' object is not callable")
    | some st => .ok (J.obj [("type", J.s "switch"), ("conds", J.arr cds),
        ("stream", streamCall st)])

/-- Counterexample to C5 as stated: a transition chain with exactly one
condition group does NOT fail at construction time — `Switch.__init__`
succeeds on a single valid group; the group-count error lives in
`Switch.__call__`, i.e. it is deferred to serialization. -/
theorem switch_one_group_constructs :
    mkSwitch [⟨.event ⟨["temp"]⟩, ">", .num 5⟩]
      = .ok ⟨[[⟨.event ⟨["temp"]⟩, ">", .num 5⟩]], none⟩
    ∧ switchCall ⟨[[⟨.event ⟨["temp"]⟩, ">", .num 5⟩]], none⟩
      = .error (.flareSyntax "Switches must contain at least two `event()`'s") := by
  exact ⟨rfl, rfl⟩

/-- Claim C5 (amended): constructing a chain from one valid condition
group succeeds; the `FlareSyntaxError` for fewer than two groups is raised
when the chain is serialized (`__call__`), not at build time; a two-group
chain bound to a stream serializes to `{'type': 'switch', 'conds': [...]}`
with exactly two condition entries. -/
theorem switch_group_arity_rules :
    (∀ q : List Cond,
        q.all (fun c => match c.path with | .event _ => true | .bound _ => false) = true →
        mkSwitch q = .ok ⟨[q], none⟩)
    ∧ (∀ sw : Switch, sw.query.length = 1 →
        switchCall sw = .error (.flareSyntax "Switches must contain at least two `event()`'s"))
    ∧ (∀ (c1 c2 : Cond) (st : Stream),
        switchCall ⟨[[c1], [c2]], some st⟩
          = .ok (J.obj [("type", J.s "switch"),
              ("conds", J.arr [condCall c1, condCall c2]),
              ("stream", streamCall st)])) := by
  refine ⟨?_, ?_, ?_⟩
  · intro q h
    simp [mkSwitch, h]
  · intro sw h
    simp [switchCall, h]
  · intro c1 c2 st
    rfl

/-- Witness for C5: a concrete one-condition group constructs successfully,
and a one-group chain fails at serialization. -/
theorem switch_group_arity_rules_witness :
    mkSwitch [⟨.event ⟨["a"]⟩, "==", .bool true⟩]
      = .ok ⟨[[⟨.event ⟨["a"]⟩, "==", .bool true⟩]], none⟩
    ∧ switchCall ⟨[[⟨.event ⟨["a"]⟩, "==", .bool true⟩]], none⟩
      = .error (.flareSyntax "Switches must contain at least two `event()`'s") := by
  exact ⟨switch_group_arity_rules.1 _ rfl,
    switch_group_arity_rules.2.1 ⟨[[⟨.event ⟨["a"]⟩, "==", .bool true⟩]], none⟩ rfl⟩

/-! ### Windowing (`Cursor.dataset`, inner function `win`) -/

/-- Window alignment policies (`LEFT, CENTER, RIGHT = range(-1, 2)`); the
code treats anything other than `LEFT`/`RIGHT` as centered. -/
inductive Align where
  | left
  | center
  | right
deriving DecidableEq, Repr

/-- Division of a duration by two with Python `timedelta` semantics: exact
when even, rounded to the nearest even microsecond on a half. Durations are
measured in integer microseconds. -/
def halfTd (n : Int) : Int :=
  if n % 2 = 0 then n / 2
  else if ((n - 1) / 2) % 2 = 0 then (n - 1) / 2 else (n - 1) / 2 + 1

/-- The inner `win` function of `Cursor.dataset`: with no window the
interval passes through; `LEFT` anchors the window at the interval start,
`RIGHT` at the interval end, and otherwise the window is centered on the
midpoint `start + (end - start)/2`. -/
def winF (window : Option Int) (align : Align) (start endT : Int) : Int × Int :=
  match window with
  | none => (start, endT)
  | some w =>
    match align with
    | .left => (start, start + w)
    | .right => (endT - w, endT)
    | .center =>
      let mp := start + halfTd (endT - start)
      let h := halfTd w
      (mp - h, mp + h)

/-- Claim C6: `dataset` windowing computes `[s, s+w)` under `LEFT`,
`[e-w, e)` under `RIGHT` and `[m - w/2, m + w/2)` with `m = s + (e-s)/2`
under `CENTER`, passing the interval through unchanged with no window; on
the span `[10:00, 10:10)` with a 2-minute window (in microseconds) this
gives `[10:00, 10:02)`, `[10:08, 10:10)` and `[10:04, 10:06)`
respectively. -/
theorem dataset_window_alignment :
    (∀ (a : Align) (s e : Int), winF none a s e = (s, e))
    ∧ (∀ (w s e : Int), winF (some w) .left s e = (s, s + w))
    ∧ (∀ (w s e : Int), winF (some w) .right s e = (e - w, e))
    ∧ (∀ (w s e : Int), winF (some w) .center s e
        = (s + halfTd (e - s) - halfTd w, s + halfTd (e - s) + halfTd w))
    ∧ winF (some 120000000) .left 0 600000000 = (0, 120000000)
    ∧ winF (some 120000000) .right 0 600000000 = (480000000, 600000000)
    ∧ winF (some 120000000) .center 0 600000000 = (240000000, 360000000) := by
  refine ⟨fun a s e => rfl, fun w s e => rfl, fun w s e => rfl, fun w s e => rfl,
    ?_, ?_, ?_⟩ <;> decide

/-! ### Event pagination (`Cursor._slice`)

The loop is driven by a simulated source of page responses: each loop
iteration consumes the next response.  A failed response leaves the
windowed continuation token untouched and bumps the retry counter; a
successful one resets the counter, replaces the token with the server's
`cursor` header (absent meaning the loop ends), registers any new streams
and appends each event — its stream tag deleted — to its stream's list. -/

/-- One simulated page response. -/
inductive Resp where
  | fail
  | ok (sids : List String) (events : List (String × Nat)) (cursor : Option String)

/-- The per-stream accumulator `streams`: an insertion-ordered map from
stream id to the events (tags already stripped) collected so far. -/
abbrev Acc := List (String × List Nat)

def accHas (acc : Acc) (sid : String) : Bool := acc.any (fun p => p.1 == sid)

/-- Registering a page's streams: ids not seen before get an empty event
list, in page order. -/
def accInit (acc : Acc) (sids : List String) : Acc :=
  sids.foldl (fun a sid => if accHas a sid then a else a ++ [(sid, [])]) acc

/-- Appending one event value to its stream's list. -/
def accAppend (acc : Acc) (sid : String) (v : Nat) : Acc :=
  acc.map (fun p => if p.1 == sid then (p.1, p.2 ++ [v]) else p)

/-- Processing a page's events in order: `del event['stream']` then append
to `streams[event['stream']]['events']`; an unregistered stream id is a
`KeyError`. -/
def accAddEvents : Acc → List (String × Nat) → Option Acc
  | acc, [] => some acc
  | acc, (sid, v) :: rest =>
    if accHas acc sid then accAddEvents (accAppend acc sid v) rest
    else none

/-- The loop state of `_slice`: the current continuation token `c`
(`none` ends the loop), the retry counter, and the accumulator. -/
structure SliceState where
  c : Option String
  retries : Nat
  acc : Acc

inductive SliceErr where
  | cursorFailed
  | keyError
  | exhausted
deriving DecidableEq, Repr

/-- `Cursor._slice`'s `while c is not None` loop over a list of simulated
responses: a failure with `retries >= max_retries` raises, a failure below
the bound retries with the same token, and a success resets the counter,
stores the new token and accumulates the page. -/
def runSlice (maxRetries : Nat) : SliceState → List Resp → Except SliceErr Acc
  | ⟨none, _, acc⟩, _ => .ok acc
  | ⟨some _, _, _⟩, [] => .error .exhausted
  | ⟨some tok, retries, acc⟩, .fail :: rest =>
    if retries ≥ maxRetries then .error .cursorFailed
    else runSlice maxRetries ⟨some tok, retries + 1, acc⟩ rest
  | ⟨some _, _, acc⟩, .ok sids evs cur :: rest =>
    match accAddEvents (accInit acc sids) evs with
    | none => .error .keyError
    | some acc2 => runSlice maxRetries ⟨cur, 0, acc2⟩ rest

theorem runSlice_replicate_fail (mr : Nat) :
    ∀ (k : Nat) (st : SliceState) (rest : List Resp), st.retries + k ≤ mr →
      runSlice mr st (List.replicate k .fail ++ rest)
        = runSlice mr { st with retries := st.retries + k } rest := by
  intro k
  induction k with
  | zero => intro st rest _; simp
  | succ k ih =>
    rintro ⟨c, r, a⟩ rest hk
    simp only at hk
    cases c with
    | none => simp [runSlice]
    | some tok =>
      rw [List.replicate_succ, List.cons_append]
      simp only [runSlice]
      have hlt : ¬ r ≥ mr := by omega
      rw [if_neg hlt]
      have h2 := ih ⟨some tok, r + 1, a⟩ rest (by simp only; omega)
      simp only at h2
      rw [h2]
      have hr : r + 1 + k = r + (k + 1) := by omega
      rw [hr]

/-- Claim C2: a failed page fetch is retried without advancing the
continuation token (only the retry counter moves); with the bound
`max_retries = 3`, four consecutive failures raise the terminal error
while three or fewer followed by a successful page do not; every
successful page resets the counter to zero; and events of successful pages
accumulate grouped by originating stream in page-arrival order with the
per-event stream tag stripped. -/
theorem slice_retry_and_grouping :
    (∀ (mr k : Nat) (st : SliceState) (rest : List Resp),
        st.retries + k ≤ mr →
        runSlice mr st (List.replicate k .fail ++ rest)
          = runSlice mr { st with retries := st.retries + k } rest)
    ∧ (∀ (tok : String) (acc : Acc) (rest : List Resp),
        runSlice 3 ⟨some tok, 0, acc⟩ (List.replicate 4 .fail ++ rest)
          = .error .cursorFailed)
    ∧ (∀ (k : Nat) (tok : String) (rest : List Resp), k ≤ 3 →
        runSlice 3 ⟨some tok, 0, []⟩ (List.replicate k .fail ++ .ok [] [] none :: rest)
          = .ok [])
    ∧ (∀ (mr : Nat) (tok : String) (retries : Nat) (acc : Acc) (sids : List String)
          (evs : List (String × Nat)) (cur : Option String) (rest : List Resp) (acc2 : Acc),
        accAddEvents (accInit acc sids) evs = some acc2 →
        runSlice mr ⟨some tok, retries, acc⟩ (.ok sids evs cur :: rest)
          = runSlice mr ⟨cur, 0, acc2⟩ rest)
    ∧ runSlice 3 ⟨some "t0", 0, []⟩
        [.ok ["s1", "s2"] [("s1", 10), ("s2", 11)] (some "t1"),
         .ok ["s1"] [("s1", 20)] (some "t2"),
         .fail,
         .ok ["s2"] [("s2", 30), ("s1", 40)] none]
        = .ok [("s1", [10, 20, 40]), ("s2", [11, 30])] := by
  refine ⟨runSlice_replicate_fail, ?_, ?_, ?_, ?_⟩
  · intro tok acc rest
    have h4 : (4 : Nat) = 3 + 1 := rfl
    rw [h4, List.replicate_add, List.append_assoc,
      runSlice_replicate_fail 3 3 ⟨some tok, 0, acc⟩ _ (by simp only; omega)]
    simp [runSlice]
  · intro k tok rest hk
    rw [runSlice_replicate_fail 3 k ⟨some tok, 0, []⟩ _ (by simp only; omega)]
    simp [runSlice, accInit, accAddEvents]
  · intro mr tok retries acc sids evs cur rest acc2 h
    simp only [runSlice, h]
  · rfl

/-- Witness for C2: a single failure below the bound retries in place at a
concrete state, and a concrete retried-once scenario returns the grouped
events. -/
theorem slice_retry_and_grouping_witness :
    runSlice 3 ⟨some "t", 0, []⟩ (List.replicate 1 .fail ++ [.ok [] [] none])
      = runSlice 3 ⟨some "t", 0 + 1, []⟩ [.ok [] [] none]
    ∧ runSlice 3 ⟨some "t", 0, []⟩ (List.replicate 2 .fail ++ .ok [] [] none :: [])
      = .ok [] := by
  exact ⟨slice_retry_and_grouping.1 3 1 ⟨some "t", 0, []⟩ [.ok [] [] none] (by simp only; omega),
    slice_retry_and_grouping.2.2.1 2 "t" [] (by omega)⟩

/-! ### Frame concatenation (`FrameGroup.dataframe`)

The per-interval tables yielded by `dataframes` are modelled as lists of
rows carrying a timestamp and an opaque payload.  `dataframe` enumerates
the yielded tables, skips empty ones, stamps each kept table's rows with
the table's 0-based position (`.span`) and the elapsed time since the
table's own first row (`.delta` = `ts - df['.ts'][0]`), and concatenates
everything in order. -/

/-- One row of a per-interval table. -/
structure Row where
  ts : Int
  v : Nat
deriving DecidableEq, Repr

abbrev Table := List Row

/-- One row of the concatenated result, with the `.span` and `.delta`
index columns added. -/
structure RRow where
  ts : Int
  span : Nat
  delta : Int
  v : Nat
deriving DecidableEq, Repr

/-- `df['.ts'][0]` — the first timestamp of a table (never consulted on an
empty table, which `dataframe` skips). -/
def headTs : Table → Int
  | [] => 0
  | r :: _ => r.ts

/-- Stamping every row of interval `i` with the span index and the delta
relative to the interval's own first timestamp. -/
def tagTable (i : Nat) (t : Table) : List RRow :=
  t.map fun r => ⟨r.ts, i, r.ts - headTs t, r.v⟩

/-- The `for i, df in enumerate(...)` loop of `dataframe`: empty tables
are skipped but still consume their enumeration index. -/
def dfLoop : Nat → List Table → List RRow
  | _, [] => []
  | i, t :: ts => (if t.isEmpty then [] else tagTable i t) ++ dfLoop (i + 1) ts

/-- `FrameGroup.dataframe` over the yielded sequence of interval tables. -/
def dataframe (tables : List Table) : List RRow := dfLoop 0 tables

theorem dfLoop_cons (n : Nat) (t : Table) (ts : List Table) :
    dfLoop n (t :: ts) = tagTable n t ++ dfLoop (n + 1) ts := by
  cases t with
  | nil => simp [dfLoop, tagTable]
  | cons r rs => simp [dfLoop, List.isEmpty]

theorem mem_dfLoop (n : Nat) (tables : List Table) (row : RRow) :
    row ∈ dfLoop n tables ↔ ∃ (i : Nat) (h : i < tables.length) (r : Row),
      r ∈ tables.get ⟨i, h⟩
        ∧ row = ⟨r.ts, n + i, r.ts - headTs (tables.get ⟨i, h⟩), r.v⟩ := by
  induction tables generalizing n with
  | nil => simp [dfLoop]
  | cons t ts ih =>
    rw [dfLoop_cons, List.mem_append, ih (n + 1)]
    constructor
    · rintro (hmem | ⟨i, h, r, hr, rfl⟩)
      · rw [tagTable, List.mem_map] at hmem
        obtain ⟨r, hr, rfl⟩ := hmem
        exact ⟨0, by simp, r, by simpa using hr, by simp⟩
      · refine ⟨i + 1, by simpa using h, r, by simpa using hr, ?_⟩
        simp only [List.get_cons_succ, RRow.mk.injEq, eq_self_iff_true, true_and, and_true]
        omega
    · rintro ⟨i, h, r, hr, rfl⟩
      cases i with
      | zero =>
        left
        rw [tagTable, List.mem_map]
        exact ⟨r, by simpa using hr, by simp⟩
      | succ i =>
        right
        refine ⟨i, by simpa using h, r, by simpa using hr, ?_⟩
        simp only [List.get_cons_succ, RRow.mk.injEq, eq_self_iff_true, true_and, and_true]
        omega

theorem map_span_const (n : Nat) (c : Int) (t : Table) :
    ((t.map fun r => (⟨r.ts, n, r.ts - c, r.v⟩ : RRow)).map RRow.span)
      = List.replicate t.length n := by
  induction t with
  | nil => rfl
  | cons r rs ih =>
    simp only [List.map_cons, List.length_cons, List.replicate_succ]
    rw [ih]

theorem tagTable_map_span (n : Nat) (t : Table) :
    (tagTable n t).map RRow.span = List.replicate t.length n := by
  rw [tagTable]
  exact map_span_const n (headTs t) t

theorem dfLoop_span_ge (n : Nat) (tables : List Table) (row : RRow)
    (h : row ∈ dfLoop n tables) : n ≤ row.span := by
  obtain ⟨i, _, r, _, rfl⟩ := (mem_dfLoop n tables row).mp h
  simp

theorem dfLoop_span_sorted (n : Nat) (tables : List Table) :
    ((dfLoop n tables).map RRow.span).Sorted (· ≤ ·) := by
  induction tables generalizing n with
  | nil => simp [dfLoop, List.Sorted]
  | cons t ts ih =>
    rw [dfLoop_cons, List.map_append, List.Sorted, List.pairwise_append]
    refine ⟨?_, ih (n + 1), ?_⟩
    · rw [tagTable_map_span]
      exact List.pairwise_replicate.mpr (Or.inr (le_refl n))
    · intro x hx y hy
      rw [tagTable_map_span] at hx
      have hxn : x = n := List.eq_of_mem_replicate hx
      rw [List.mem_map] at hy
      obtain ⟨rr, hrr, rfl⟩ := hy
      have := dfLoop_span_ge (n + 1) ts rr hrr
      omega

/-- Claim C7: `dataframe()` gives the rows of the `i`-th yielded interval
the span index `i` (indices strictly increasing across intervals, starting
at 0) and a `.delta` equal to the row's timestamp minus the first timestamp
of the row's own interval (so delta resets to zero at each interval's first
row); every output row originates from the interval its span names; and
span indices appear in monotone order in the concatenation — for every
yielded sequence of tables, empty tables included. -/
theorem dataframe_span_delta :
    (∀ (tables : List Table) (i : Nat) (h : i < tables.length) (r : Row),
        r ∈ tables.get ⟨i, h⟩ →
        (⟨r.ts, i, r.ts - headTs (tables.get ⟨i, h⟩), r.v⟩ : RRow) ∈ dataframe tables)
    ∧ (∀ (tables : List Table) (row : RRow), row ∈ dataframe tables →
        ∃ (h : row.span < tables.length) (r : Row),
          r ∈ tables.get ⟨row.span, h⟩ ∧ row.ts = r.ts ∧ row.v = r.v
            ∧ row.delta = r.ts - headTs (tables.get ⟨row.span, h⟩))
    ∧ (∀ tables : List Table, ((dataframe tables).map RRow.span).Sorted (· ≤ ·))
    ∧ (∀ (tables : List Table) (i : Nat) (h : i < tables.length) (r : Row)
          (rest : List Row), tables.get ⟨i, h⟩ = r :: rest →
        (⟨r.ts, i, 0, r.v⟩ : RRow) ∈ dataframe tables) := by
  refine ⟨?_, ?_, ?_, ?_⟩
  · intro tables i h r hr
    rw [dataframe, mem_dfLoop]
    exact ⟨i, h, r, hr, by simp⟩
  · intro tables row hrow
    rw [dataframe, mem_dfLoop] at hrow
    obtain ⟨i, h, r, hr, rfl⟩ := hrow
    exact ⟨by simpa using h, r, by simpa using hr, rfl, rfl, by simp⟩
  · intro tables
    exact dfLoop_span_sorted 0 tables
  · intro tables i h r rest hget
    rw [dataframe, mem_dfLoop]
    refine ⟨i, h, r, ?_, ?_⟩
    · rw [hget]
      exact List.mem_cons_self r rest
    · rw [hget]
      simp [headTs]

/-- Witness for C7: over the two yielded tables `[[(ts 5)], [(ts 7)]]` the
second interval's row appears with span index 1 and delta 0. -/
theorem dataframe_span_delta_witness :
    (⟨7, 1, 0, 2⟩ : RRow) ∈ dataframe [[⟨5, 1⟩], [⟨7, 2⟩]] := by
  exact dataframe_span_delta.2.2.2 [[⟨5, 1⟩], [⟨7, 2⟩]] 1 (by decide) ⟨7, 2⟩ [] rfl

end Sentenai
